import Mathlib

/-!
# Arduino coil controller (`control.c`): shallow embedding

The sketch runs on an AVR Arduino: `int` is 16-bit two's complement,
`unsigned long` (the type of `millis()`) is 32-bit.  Machine integers are
modelled as `Int` with explicit wrap-around.  The hardware (millisecond
clock, analog inputs, digital outputs, serial link) is an explicit `World`
that every operation threads through.  A division by zero, which C leaves
undefined, either ends the run without a result or yields the value the
board's division routine returns; the `World` says which.
-/

namespace CoilGun

/-! ## Machine arithmetic -/

/-- Conversion of a value to a 16-bit two's complement `int`. -/
def toInt16 (x : Int) : Int := (x + 32768) % 65536 - 32768

/-- Conversion of a value to a 32-bit `unsigned long`. -/
def toU32 (x : Int) : Int := x % 4294967296

/-- Ways in which a run of the model yields no result: the iteration bound
of a polling loop is used up, or the program evaluates a division whose
behaviour C leaves undefined. -/
inductive Fault where
  | fuel
  | division
  deriving DecidableEq, Repr

deriving instance DecidableEq for Except

/-- C division of two `int`s: truncation toward zero; undefined for a zero
divisor and for `INT_MIN / -1`. -/
def cDiv (a b : Int) : Except Fault Int :=
  if b = 0 then .error .division
  else if a = -32768 ∧ b = -1 then .error .division
  else .ok (Int.tdiv a b)

/-- A division as the board carries it out: the quotient where C defines
one; where C leaves the division undefined, the value `dz` of the board's
division routine when there is one. -/
def onBoard (dz : Option Int) (r : Except Fault Int) : Except Fault Int :=
  match r with
  | .ok q => .ok q
  | .error e =>
    match dz with
    | some x => .ok x
    | none => .error e

/-! ## Hardware state -/

/-- Observable actions of the sketch, in program order. -/
inductive Event where
  | write (pin : Nat) (level : Bool)
  | delay (ms : Nat)
  | println (s : String)
  deriving DecidableEq, Repr

/-- State of the board and its environment.  `clock k` is the time in
milliseconds since start-up at the `k`-th call of `millis()`, `analog p k` the
value the `k`-th call of `analogRead` yields when it reads pin `p`.
`divZero` is what the board makes of a division that C leaves undefined:
`some x` when its division routine returns `x` and the program goes on,
`none` when the run is taken to have no defined result from there on. -/
structure World where
  clock : Nat → Nat
  tick : Nat
  analog : Nat → Nat → Int
  areads : Nat
  pins : Nat → Bool
  serialIn : List Nat
  log : List Event
  divZero : Option Int

def HIGH : Bool := true
def LOW : Bool := false

/-- The call `millis()`: the current time as an `unsigned long`. -/
def millis (w : World) : Int × World :=
  (toU32 (w.clock w.tick), { w with tick := w.tick + 1 })

/-- The call `analogRead(pin)`. -/
def analogRead (pin : Nat) (w : World) : Int × World :=
  (w.analog pin w.areads, { w with areads := w.areads + 1 })

/-- The call `digitalWrite(pin, level)`. -/
def digitalWrite (pin : Nat) (level : Bool) (w : World) : World :=
  { w with pins := fun p => if p = pin then level else w.pins p,
           log := w.log ++ [Event.write pin level] }

/-- The call `delay(ms)`. -/
def delay (ms : Nat) (w : World) : World :=
  { w with log := w.log ++ [Event.delay ms] }

/-- The call `Serial.println(s)`. -/
def println (s : String) (w : World) : World :=
  { w with log := w.log ++ [Event.println s] }

/-! ## Constants of the sketch -/

/-- The fire command, the character `' '`. -/
def command : Int := 32
/-- The clear command, the character `'c'`. -/
def clr : Int := 99
/-- The debug command, the character `'d'`. -/
def initDebug : Int := 100
def onTime : Int := 75
def relay : List Nat := [2, 3, 4]
def sensor : List Nat := [1, 0]
def threshold : List Int := [990, 1000]
def debugger : Bool := true

/-! ## `checkTime` -/

/-- Source `checkTime(initial, total)`: `millis() - initial >= total`, the
subtraction and the comparison done in `unsigned long` after the usual
arithmetic conversions of the two `int` arguments. -/
def checkTime (initial total : Int) (w : World) : Bool × World :=
  let (m, w1) := millis w
  (decide (toU32 (m - toU32 initial) ≥ toU32 total), w1)

/-! ## The fire sequence -/

/-- Local variables of the fire branch of the source `loop`. -/
structure FireVars where
  dT : Int
  v : Int
  dT2 : Int
  v2 : Int
  t2 : Int
  dT3 : Except Fault Int
  deriving DecidableEq, Repr

/-- The velocity estimate of lines 83 and 112: `v = dT/8`. -/
def velocity (dT : Int) : Except Fault Int := cDiv dT 8

/-- The predicted time of lines 102 and 119: `t2 = 4/v`, `dT3 = 4/v2`. -/
def predict (v : Int) : Except Fault Int := cDiv 4 v

/-- Body of the first `if` of the fire branch: relay 1 off, then
`dT = millis() - startTime; v = dT/8;` and the message.  Yields the world
and the values of `dT` and `v`. -/
def stage1Exit (startTime : Int) (w : World) : Except Fault (World × Int × Int) :=
  let w1 := digitalWrite (relay.getD 0 0) LOW w
  let (m, w2) := millis w1
  let dT := toInt16 (toU32 (m - toU32 startTime))
  match onBoard w.divZero (velocity dT) with
  | .error e => .error e
  | .ok v => .ok (println "Coil 1 fired." w2, dT, v)

/-- The first `while(true)` of the fire branch; `fuel` bounds the number of
iterations.  The right operand of `||` is evaluated only when `checkTime`
is false. -/
def stage1Loop : Nat → Int → World → Except Fault (World × Int × Int)
  | 0, _, _ => .error .fuel
  | fuel + 1, startTime, w =>
    let (timeUp, w1) := checkTime startTime onTime w
    if timeUp then stage1Exit startTime w1
    else
      let (a, w2) := analogRead (sensor.getD 0 0) w1
      if a < threshold.getD 0 0 then stage1Exit startTime w2
      else stage1Loop fuel startTime w2

/-- Stage 1 of the fire branch: `int startTime = millis();`, relay 1 on, the
polling loop. -/
def stage1 (fuel : Nat) (w : World) : Except Fault (World × Int × Int) :=
  let (m, w1) := millis w
  let startTime := toInt16 m
  let w2 := digitalWrite (relay.getD 0 0) HIGH w1
  stage1Loop fuel startTime w2

/-- Body of the second `if` of the fire branch: relay 2 off, then
`dT2 = millis() - startTime2; v2 = dT2 / 8;` and the message. -/
def stage2Exit (startTime2 : Int) (w : World) : Except Fault (World × Int × Int) :=
  let w1 := digitalWrite (relay.getD 1 0) LOW w
  let (m, w2) := millis w1
  let dT2 := toInt16 (toU32 (m - toU32 startTime2))
  match onBoard w.divZero (velocity dT2) with
  | .error e => .error e
  | .ok v2 => .ok (println "Coil 2 fired." w2, dT2, v2)

/-- The second `while(true)` of the fire branch: every iteration first
evaluates `t2 = 4/v`, whose value the time test then uses.  Yields the world
and `dT2`, `v2`, `t2`. -/
def stage2Loop : Nat → Int → Int → World → Except Fault (World × Int × Int × Int)
  | 0, _, _, _ => .error .fuel
  | fuel + 1, startTime2, v, w =>
    match onBoard w.divZero (predict v) with
    | .error e => .error e
    | .ok t2 =>
      let (timeUp, w1) := checkTime startTime2 t2 w
      if timeUp then
        (stage2Exit startTime2 w1).map (fun r => (r.1, r.2.1, r.2.2, t2))
      else
        let (a, w2) := analogRead (sensor.getD 1 0) w1
        if a < threshold.getD 1 0 then
          (stage2Exit startTime2 w2).map (fun r => (r.1, r.2.1, r.2.2, t2))
        else stage2Loop fuel startTime2 v w2

/-- Stage 2 of the fire branch: `int startTime2 = millis();`, relay 2 on, the
polling loop with the velocity `v` of stage 1. -/
def stage2 (fuel : Nat) (v : Int) (w : World) : Except Fault (World × Int × Int × Int) :=
  let (m, w1) := millis w
  let startTime2 := toInt16 m
  let w2 := digitalWrite (relay.getD 1 0) HIGH w1
  stage2Loop fuel startTime2 v w2

/-- Stage 3 of the fire branch: `int dT3 = 4/v2;`, then relay 3 on,
`delay(20)`, relay 3 off and the message.  The variable `dT3` is never read:
whether or not the division has a value, the four statements that follow
are carried out.  Yields the world and what `dT3` holds. -/
def stage3 (v2 : Int) (w : World) : World × Except Fault Int :=
  let dT3 := onBoard w.divZero (predict v2)
  let w1 := digitalWrite (relay.getD 2 0) HIGH w
  let w2 := delay 20 w1
  let w3 := digitalWrite (relay.getD 2 0) LOW w2
  (println "Coil 3 fired." w3, dT3)

/-- The cool-down that ends the fire branch. -/
def cooldown (w : World) : World :=
  let w1 := println "Firing complete, cooling down." w
  let w2 := delay 3000 w1
  println "Cool Down Complete.\n\nSystem Ready" w2

/-- The fire branch of the source `loop` (lines 63-133). -/
def fire (fuel : Nat) (w : World) : Except Fault (World × FireVars) :=
  match stage1 fuel w with
  | .error e => .error e
  | .ok (w1, dT, v) =>
    match stage2 fuel v w1 with
    | .error e => .error e
    | .ok (w2, dT2, v2, t2) =>
      let (w3, dT3) := stage3 v2 w2
      .ok (cooldown w3, ⟨dT, v, dT2, v2, t2, dT3⟩)

/-! ## `resetAll`, `debug` and the command dispatch -/

/-- Source `resetAll`. -/
def resetAll (w : World) : World :=
  let w1 := if debugger then println "Reset sequence initiated." w else w
  let w2 := relay.foldl (fun acc pin => digitalWrite pin LOW acc) w1
  if debugger then
    println "Reset sequence complete.\n" (println "Relays off." w2)
  else w2

/-- One iteration of the first loop of the source `debug`. -/
def debugRelay (w : World) (x : Nat) : World :=
  let pin := relay.getD x 0
  let w1 := digitalWrite pin HIGH w
  let w2 := delay 500 w1
  let w3 := digitalWrite pin LOW w2
  let w4 := delay 500 w3
  println ("Coil: " ++ toString x ++ " tested. at" ++ toString pin) w4

/-- One iteration of the second loop of the source `debug`. -/
def debugSensor (w : World) (x : Nat) : World :=
  let (reading, w1) := analogRead (sensor.getD x 0) w
  if threshold.getD x 0 - 10 ≤ reading ∧ threshold.getD x 0 + 10 ≥ reading then
    println ("Light sensor " ++ toString x ++ " within accepted range. - "
      ++ toString reading ++ " " ++ toString (sensor.getD x 0)) w1
  else
    println ("WARNING: Light sensor " ++ toString x ++ " requires calibration! - "
      ++ toString reading ++ " " ++ toString (sensor.getD x 0)) w1

/-- Source `debug`. -/
def debug (w : World) : World :=
  let w1 := println "Debugging process initiated." w
  let w2 := (List.range relay.length).foldl debugRelay w1
  let w3 := (List.range sensor.length).foldl debugSensor w2
  println "Debug sequence complete.\n" w3

/-- The call `Serial.available()`. -/
def serialAvailable (w : World) : Int := w.serialIn.length

/-- The call `Serial.read()`: the next byte, or -1 when there is none. -/
def serialRead (w : World) : Int × World :=
  match w.serialIn with
  | [] => (-1, w)
  | b :: rest => ((b % 256 : Nat), { w with serialIn := rest })

/-- Conversion of a value to the 8-bit signed `char` of the AVR. -/
def toChar8 (x : Int) : Int := (x + 128) % 256 - 128

/-- Source `loop`: one pass of the main function. -/
def loop (fuel : Nat) (w : World) : Except Fault World :=
  if serialAvailable w > 0 then
    let (r, w1) := serialRead w
    let input := toChar8 r
    if input = command then (fire fuel w1).map (fun r => r.1)
    else if input = clr then .ok (resetAll w1)
    else if input = initDebug then .ok (debug w1)
    else .ok (println "Invalid Command" w1)
  else .ok w

/-! ## Clocks -/

/-- A clock that the program reads faster than it ticks: from one reading to
the next the time stays or goes up by one millisecond. -/
def SteadyClock (c : Nat → Nat) : Prop :=
  ∀ k, c k ≤ c (k + 1) ∧ c (k + 1) ≤ c k + 1

/-! ## Concrete worlds -/

/-- A board on which nothing happens: the clock stands at 0, the sensors read
full light, all pins are low, no serial input; a division that C leaves
undefined has no result. -/
def idleWorld : World :=
  ⟨fun _ => 0, 0, fun _ _ => 1023, 0, fun _ => false, [], [], none⟩

/-- A board on which all three relays are energized. -/
def hotWorld : World := { idleWorld with pins := fun p => decide (p = 2 ∨ p = 3 ∨ p = 4) }

/-- A board that has been up for 32768 ms. -/
def lateWorld : World := { idleWorld with clock := fun _ => 32768 }

/-- A board whose clock jumps: the first two readings are 0, the next four
are 100, all later ones 108; the sensors read full light. -/
def jumpWorld : World :=
  { idleWorld with clock := fun k => if k < 2 then 0 else if k < 6 then 100 else 108 }

/-- A board whose clock ticks at every reading (0, 1, 2, ...) and whose
sensors never trip. -/
def brightWorld : World := { idleWorld with clock := fun k => k }

/-- A board whose clock ticks at every reading and whose sensors read full
light nine times and are dark from then on. -/
def tickWorld : World :=
  { idleWorld with clock := fun k => k,
                   analog := fun _ k => if k < 9 then 1023 else 500 }

/-- The board `tickWorld` after stage 1: twelve clock readings, ten sensor
readings, relay 1 switched on and off again. -/
def tickWorld1 : World :=
  { tickWorld with tick := 12, areads := 10,
                   pins := fun p => if p = 2 then LOW else if p = 2 then HIGH else false,
                   log := [Event.write 2 HIGH, Event.write 2 LOW,
                           Event.println "Coil 1 fired."] }

/-- A board whose sensors are dark from the start. -/
def darkWorld : World := { idleWorld with analog := fun _ _ => 500 }

/-- A board on a steady clock on which sensor 1 is dark from its fifth
reading on and sensor 2 never trips, and whose division routine returns -1
for a zero divisor. -/
def quickWorld : World :=
  { idleWorld with clock := fun k => k,
                   analog := fun p k => if p = 1 ∧ 4 ≤ k then 500 else 1023,
                   divZero := some (-1) }

/-- The board `quickWorld` after stage 1: seven clock readings, five sensor
readings, relay 1 switched on and off again. -/
def quickWorld1 : World :=
  { quickWorld with tick := 7, areads := 5,
                    pins := fun p => if p = 2 then LOW else if p = 2 then HIGH else false,
                    log := [Event.write 2 HIGH, Event.write 2 LOW,
                            Event.println "Coil 1 fired."] }

/-! ## Arithmetic of the two divisions -/

theorem velocity_eq (dT : Int) : velocity dT = .ok (Int.tdiv dT 8) := by
  simp [velocity, cDiv]

theorem velocity_of_nonneg (dT : Int) (h : 0 ≤ dT) : velocity dT = .ok (dT / 8) := by
  rw [velocity_eq, Int.tdiv_eq_ediv h (by decide)]

theorem predict_of_pos (v : Int) (h : 0 < v) : predict v = .ok (4 / v) := by
  have h0 : v ≠ 0 := by omega
  have h1 : ¬ v = -1 := by omega
  simp [predict, cDiv, h0, h1, Int.tdiv_eq_ediv (show (0 : Int) ≤ 4 by decide) (le_of_lt h)]

theorem four_div_bounds (v : Int) (h : 0 < v) : 0 ≤ 4 / v ∧ 4 / v ≤ 4 := by
  constructor
  · exact Int.ediv_nonneg (by decide) (le_of_lt h)
  · exact Int.ediv_le_self _ (by decide)

theorem four_div_eq_zero (v : Int) (h : 5 ≤ v) : 4 / v = 0 :=
  Int.ediv_eq_zero_of_lt (by decide) (by omega)

theorem onBoard_ok (dz : Option Int) (q : Int) : onBoard dz (.ok q) = .ok q := rfl

theorem onBoard_velocity (dz : Option Int) (dT : Int) :
    onBoard dz (velocity dT) = .ok (Int.tdiv dT 8) := by
  rw [velocity_eq, onBoard_ok]

/-! ## Velocity estimate (C6) -/

/-- C6, as stated, fails: the elapsed time 7 is positive and the velocity
estimate `7/8` the sequencer computes from it is 0. -/
theorem velocity_zero_for_positive_elapsed :
    ¬ (∀ dT v : Int, 0 < dT → velocity dT = .ok v → 0 < v) :=
  fun h => absurd (h 7 0 (by decide) (by decide)) (by decide)

/-- C6, amended: for every elapsed time `dT ≥ 8` the velocity estimate
`v = dT/8` is strictly positive. -/
theorem velocity_pos_of_ge_eight (dT v : Int) (h8 : 8 ≤ dT)
    (hv : velocity dT = .ok v) : 0 < v := by
  rw [velocity_of_nonneg dT (by omega)] at hv
  injection hv with hv
  omega

/-- The amended C6 at `dT = 75`, a stage that times out: `v = 9`. -/
theorem velocity_pos_of_ge_eight_witness :
    (8 : Int) ≤ 75 ∧ velocity 75 = .ok 9 ∧ (0 : Int) < 9 :=
  ⟨by decide, by decide, velocity_pos_of_ge_eight 75 9 (by decide) (by decide)⟩

/-! ## `checkTime` (C9, C10) -/

theorem toU32_nonneg (x : Int) : 0 ≤ toU32 x :=
  Int.emod_nonneg x (by decide)

theorem checkTime_zero (initial : Int) (w : World) :
    (checkTime initial 0 w).1 = true := by
  simp only [checkTime, decide_eq_true_eq]
  exact toU32_nonneg _

theorem checkTime_world (initial total : Int) (w : World) :
    (checkTime initial total w).2 = { w with tick := w.tick + 1 } := rfl

/-- While the start value still fits a 16-bit `int` (`m0 < 32768`),
`checkTime` is exact: it is true at a later clock value `m1` if and only if
`m1 - m0 >= total`. -/
theorem checkTime_exact_before_wrap (w : World) (m0 : Nat) (total : Int)
    (hm0 : m0 < 32768) (hle : m0 ≤ w.clock w.tick) (hm1 : w.clock w.tick < 4294967296)
    (ht0 : 0 ≤ total) (ht : total ≤ 75) :
    (checkTime (toInt16 (toU32 m0)) total w).1 = true ↔
      total ≤ (w.clock w.tick : Int) - m0 := by
  simp only [checkTime, millis, decide_eq_true_eq, toU32, toInt16]
  constructor <;> intro h <;> omega

/-- C9 at the failing input: the start time is captured at clock value 32768
and `checkTime(startTime, 75)` is called at the same clock value; no time
has passed, yet the call yields true. -/
theorem checkTime_true_after_wrap :
    toInt16 (millis lateWorld).1 = -32768 ∧
    (checkTime (toInt16 (millis lateWorld).1) 75 (millis lateWorld).2).1 = true ∧
    ¬ ((75 : Int) ≤ (lateWorld.clock 1 : Int) - (lateWorld.clock 0 : Int)) := by
  decide

/-! ## Exits of the two polling loops -/

theorem stage1Exit_eq (s : Int) (w : World) :
    stage1Exit s w =
      .ok ({ w with tick := w.tick + 1,
                    pins := fun p => if p = 2 then LOW else w.pins p,
                    log := w.log ++ [Event.write 2 LOW, Event.println "Coil 1 fired."] },
           toInt16 (toU32 (toU32 (w.clock w.tick) - toU32 s)),
           Int.tdiv (toInt16 (toU32 (toU32 (w.clock w.tick) - toU32 s))) 8) := by
  simp [stage1Exit, onBoard_velocity, millis, digitalWrite, println, relay]

theorem stage2Exit_eq (s : Int) (w : World) :
    stage2Exit s w =
      .ok ({ w with tick := w.tick + 1,
                    pins := fun p => if p = 3 then LOW else w.pins p,
                    log := w.log ++ [Event.write 3 LOW, Event.println "Coil 2 fired."] },
           toInt16 (toU32 (toU32 (w.clock w.tick) - toU32 s)),
           Int.tdiv (toInt16 (toU32 (toU32 (w.clock w.tick) - toU32 s))) 8) := by
  simp [stage2Exit, onBoard_velocity, millis, digitalWrite, println, relay]

/-- With a budget of 0 the stage-2 loop ends in its first iteration, on the
time test, without reading the sensor. -/
theorem stage2Loop_zero_budget (fuel : Nat) (s v : Int) (w : World)
    (hp : predict v = .ok 0) :
    stage2Loop (fuel + 1) s v w =
      .ok ({ w with tick := w.tick + 2,
                    pins := fun p => if p = 3 then LOW else w.pins p,
                    log := w.log ++ [Event.write 3 LOW, Event.println "Coil 2 fired."] },
           toInt16 (toU32 (toU32 (w.clock (w.tick + 1)) - toU32 s)),
           Int.tdiv (toInt16 (toU32 (toU32 (w.clock (w.tick + 1)) - toU32 s))) 8, 0) := by
  have hc : checkTime s 0 w = (true, { w with tick := w.tick + 1 }) :=
    Prod.ext (checkTime_zero s w) (checkTime_world s 0 w)
  simp only [stage2Loop, hp, onBoard_ok, hc, stage2Exit_eq, if_true, Except.map]

/-! ## Stage-2 budget after a stage 1 of at least 8 ms (C10) -/

/-- C10: for every stage-1 elapsed time `dT` with `8 ≤ dT ≤ 32767` the
stage-2 budget `t2 = 4 / (dT / 8)` is defined, lies in `[0, 4]`, and is 0
from `dT = 40` on; with `t2 = 0`, `checkTime(startTime2, t2)` is true at every
clock value, and the stage-2 loop ends in its first iteration: one poll, no
sensor read, relay 2 written low. -/
theorem stage2_budget_small (dT : Int) (h8 : 8 ≤ dT) (hmax : dT ≤ 32767) :
    ∃ v t2, velocity dT = .ok v ∧ predict v = .ok t2 ∧ 0 ≤ t2 ∧ t2 ≤ 4 ∧
      (40 ≤ dT → t2 = 0) ∧
      (t2 = 0 →
        (∀ initial w, (checkTime initial t2 w).1 = true) ∧
        ∀ fuel startTime2 w, ∃ w2 dT2 v2,
          stage2Loop (fuel + 1) startTime2 v w = .ok (w2, dT2, v2, t2) ∧
          w2.pins 3 = LOW ∧ w2.areads = w.areads ∧ w2.tick = w.tick + 2 ∧
          w2.log = w.log ++ [Event.write 3 LOW, Event.println "Coil 2 fired."]) := by
  have hv : 0 < dT / 8 := by omega
  refine ⟨dT / 8, 4 / (dT / 8), velocity_of_nonneg dT (by omega), predict_of_pos _ hv,
    (four_div_bounds _ hv).1, (four_div_bounds _ hv).2, ?_, ?_⟩
  · intro h40
    exact four_div_eq_zero _ (by omega)
  · intro ht
    rw [ht]
    refine ⟨checkTime_zero, ?_⟩
    intro fuel s w
    have hp : predict (dT / 8) = .ok 0 := by rw [predict_of_pos _ hv, ht]
    rw [stage2Loop_zero_budget fuel s _ w hp]
    exact ⟨_, _, _, rfl, by simp, rfl, rfl, rfl⟩

/-- C10 at `dT = 40`, a stage 1 whose sensor trips after 40 ms. -/
theorem stage2_budget_small_witness :
    ∃ v t2, velocity 40 = .ok v ∧ predict v = .ok t2 ∧ 0 ≤ t2 ∧ t2 ≤ 4 ∧
      (40 ≤ (40 : Int) → t2 = 0) ∧
      (t2 = 0 →
        (∀ initial w, (checkTime initial t2 w).1 = true) ∧
        ∀ fuel startTime2 w, ∃ w2 dT2 v2,
          stage2Loop (fuel + 1) startTime2 v w = .ok (w2, dT2, v2, t2) ∧
          w2.pins 3 = LOW ∧ w2.areads = w.areads ∧ w2.tick = w.tick + 2 ∧
          w2.log = w.log ++ [Event.write 3 LOW, Event.println "Coil 2 fired."]) :=
  stage2_budget_small 40 (by decide) (by decide)

/-! ## Effect of the polling loops on the board -/

theorem checkTime_eq (s t : Int) (w : World) :
    checkTime s t w =
      (decide (toU32 (toU32 (w.clock w.tick) - toU32 s) ≥ toU32 t),
       { w with tick := w.tick + 1 }) := rfl

theorem analogRead_eq (pin : Nat) (w : World) :
    analogRead pin w = (w.analog pin w.areads, { w with areads := w.areads + 1 }) := rfl

/-- A completed stage-1 loop leaves the board as it found it, except that
the clock and the sensor have been read some number of times, relay 1 is
low, and the write and the message are logged. -/
theorem stage1Loop_world : ∀ (fuel : Nat) (s : Int) (w w1 : World) (dT v : Int),
    stage1Loop fuel s w = .ok (w1, dT, v) →
    ∃ n a, w1 = { w with tick := w.tick + n, areads := w.areads + a,
                         pins := fun p => if p = 2 then LOW else w.pins p,
                         log := w.log ++ [Event.write 2 LOW, Event.println "Coil 1 fired."] } := by
  intro fuel
  induction fuel with
  | zero => intro s w w1 dT v h; simp [stage1Loop] at h
  | succ k ih =>
    intro s w w1 dT v h
    simp only [stage1Loop, checkTime_eq, analogRead_eq] at h
    split at h
    · rw [stage1Exit_eq] at h
      simp only [Except.ok.injEq, Prod.mk.injEq] at h
      exact ⟨2, 0, h.1.symm⟩
    · split at h
      · rw [stage1Exit_eq] at h
        simp only [Except.ok.injEq, Prod.mk.injEq] at h
        exact ⟨2, 1, h.1.symm⟩
      · obtain ⟨n, a, hw⟩ := ih _ _ _ _ _ h
        refine ⟨n + 1, a + 1, ?_⟩
        rw [hw]
        simp only [World.mk.injEq, true_and, and_true]
        constructor <;> omega

/-- The same for a completed stage-2 loop and relay 2. -/
theorem stage2Loop_world : ∀ (fuel : Nat) (s v : Int) (w w2 : World) (dT2 v2 t2 : Int),
    stage2Loop fuel s v w = .ok (w2, dT2, v2, t2) →
    ∃ n a, w2 = { w with tick := w.tick + n, areads := w.areads + a,
                         pins := fun p => if p = 3 then LOW else w.pins p,
                         log := w.log ++ [Event.write 3 LOW, Event.println "Coil 2 fired."] } := by
  intro fuel
  induction fuel with
  | zero => intro s v w w2 dT2 v2 t2 h; simp [stage2Loop] at h
  | succ k ih =>
    intro s v w w2 dT2 v2 t2 h
    simp only [stage2Loop, checkTime_eq, analogRead_eq] at h
    split at h
    · simp at h
    · split at h
      · rw [stage2Exit_eq] at h
        simp only [Except.map, Except.ok.injEq, Prod.mk.injEq] at h
        exact ⟨2, 0, h.1.symm⟩
      · split at h
        · rw [stage2Exit_eq] at h
          simp only [Except.map, Except.ok.injEq, Prod.mk.injEq] at h
          exact ⟨2, 1, h.1.symm⟩
        · obtain ⟨n, a, hw⟩ := ih _ _ _ _ _ _ _ h
          refine ⟨n + 1, a + 1, ?_⟩
          rw [hw]
          simp only [World.mk.injEq, true_and, and_true]
          constructor <;> omega

/-! ## The three stages (C3) -/

theorem stage1_world (fuel : Nat) (w w1 : World) (dT v : Int)
    (h : stage1 fuel w = .ok (w1, dT, v)) :
    ∃ n a, w1 = { w with tick := w.tick + n, areads := w.areads + a,
                         pins := fun p => if p = 2 then LOW else w.pins p,
                         log := w.log ++ [Event.write 2 HIGH, Event.write 2 LOW,
                                          Event.println "Coil 1 fired."] } := by
  obtain ⟨n, a, hw⟩ := stage1Loop_world _ _ _ _ _ _ h
  refine ⟨n + 1, a, ?_⟩
  rw [hw]
  simp only [millis, digitalWrite, relay, List.getD_cons_zero, World.mk.injEq, true_and,
    and_true, List.append_assoc, List.singleton_append, List.cons_append, List.nil_append]
  refine ⟨by omega, ?_⟩
  funext p
  by_cases hp : p = 2 <;> simp [hp]

theorem stage2_world (fuel : Nat) (v : Int) (w w2 : World) (dT2 v2 t2 : Int)
    (h : stage2 fuel v w = .ok (w2, dT2, v2, t2)) :
    ∃ n a, w2 = { w with tick := w.tick + n, areads := w.areads + a,
                         pins := fun p => if p = 3 then LOW else w.pins p,
                         log := w.log ++ [Event.write 3 HIGH, Event.write 3 LOW,
                                          Event.println "Coil 2 fired."] } := by
  obtain ⟨n, a, hw⟩ := stage2Loop_world _ _ _ _ _ _ _ _ h
  refine ⟨n + 1, a, ?_⟩
  rw [hw]
  simp only [millis, digitalWrite, relay, List.getD_cons_succ, List.getD_cons_zero,
    World.mk.injEq, true_and, and_true, List.append_assoc, List.singleton_append,
    List.cons_append, List.nil_append]
  refine ⟨by omega, ?_⟩
  funext p
  by_cases hp : p = 3 <;> simp [hp]

theorem stage3_world (v2 : Int) (w : World) :
    (stage3 v2 w).1 =
      { w with pins := fun p => if p = 4 then LOW else w.pins p,
               log := w.log ++ [Event.write 4 HIGH, Event.delay 20, Event.write 4 LOW,
                                Event.println "Coil 3 fired."] } := by
  simp only [stage3, println, delay, digitalWrite, relay, List.getD_cons_succ,
    List.getD_cons_zero, World.mk.injEq, true_and, and_true, List.append_assoc,
    List.singleton_append, List.cons_append, List.nil_append]
  funext p
  by_cases hp : p = 4 <;> simp [hp]

theorem cooldown_pins (w : World) : (cooldown w).pins = w.pins := rfl

/-- C3: whichever way a stage ends, its relay is low when the stage finishes
(pin 2 after the first loop, pin 3 after the second loop, pin 4 after the
stage-3 pulse, which is carried out whatever `v2` is), and all three relays
are low when the fire branch returns, whatever they were at the start and
whatever the board makes of a division by zero. -/
theorem relays_low_after_stages (fuel : Nat) (w w1 : World) (dT v : Int)
    (h1 : stage1 fuel w = .ok (w1, dT, v)) :
    w1.pins 2 = LOW ∧
    (∀ v2 w2, (stage3 v2 w2).1.pins 4 = LOW) ∧
    ∀ w2 dT2 v2 t2, stage2 fuel v w1 = .ok (w2, dT2, v2, t2) →
      w2.pins 3 = LOW ∧
      fire fuel w =
        .ok (cooldown (stage3 v2 w2).1, ⟨dT, v, dT2, v2, t2, (stage3 v2 w2).2⟩) ∧
      (cooldown (stage3 v2 w2).1).pins 2 = LOW ∧
      (cooldown (stage3 v2 w2).1).pins 3 = LOW ∧
      (cooldown (stage3 v2 w2).1).pins 4 = LOW := by
  obtain ⟨n1, a1, hw1⟩ := stage1_world _ _ _ _ _ h1
  refine ⟨by rw [hw1]; simp, ?_, ?_⟩
  · intro v2 w2
    rw [stage3_world]
    simp
  · intro w2 dT2 v2 t2 h2
    obtain ⟨n2, a2, hw2⟩ := stage2_world _ _ _ _ _ _ _ h2
    refine ⟨by rw [hw2]; simp, by simp only [fire, h1, h2], ?_⟩
    rw [cooldown_pins, stage3_world, hw2, hw1]
    simp

/-- C3 on `tickWorld`, a steady clock: stage 1 ends on the sensor after
11 ms, stage 2 on the sensor after 2 ms, so `v2 = 0` and `dT3` has no value;
the pulse of stage 3 is carried out and the fire branch returns. -/
theorem relays_low_after_stages_witness :
    SteadyClock tickWorld.clock ∧
    stage1 10 tickWorld = .ok (tickWorld1, 11, 1) ∧
    (fire 10 tickWorld).map Prod.snd = .ok ⟨11, 1, 2, 0, 4, .error Fault.division⟩ ∧
    (tickWorld1.pins 2 = LOW ∧
    (∀ v2 w2, (stage3 v2 w2).1.pins 4 = LOW) ∧
    ∀ w2 dT2 v2 t2, stage2 10 1 tickWorld1 = .ok (w2, dT2, v2, t2) →
      w2.pins 3 = LOW ∧
      fire 10 tickWorld =
        .ok (cooldown (stage3 v2 w2).1, ⟨11, 1, dT2, v2, t2, (stage3 v2 w2).2⟩) ∧
      (cooldown (stage3 v2 w2).1).pins 2 = LOW ∧
      (cooldown (stage3 v2 w2).1).pins 3 = LOW ∧
      (cooldown (stage3 v2 w2).1).pins 4 = LOW) :=
  ⟨fun k => by simp only [tickWorld]; omega, rfl, rfl,
   relays_low_after_stages 10 tickWorld tickWorld1 11 1 rfl⟩

/-- A run with `v = 0` on a board whose division routine returns -1: both
sensors are dark, stage 1 and stage 2 each end on the sensor at the first
poll, and the fire branch returns. -/
theorem fire_returns_at_zero_velocity :
    (fire 1 { darkWorld with divZero := some (-1) }).map Prod.snd =
      .ok ⟨0, 0, 0, 0, -1, .ok (-1)⟩ := by
  decide

/-! ## `resetAll` (C8) -/

theorem resetAll_pins (w : World) :
    (resetAll w).pins =
      fun p => if p = 4 then LOW else if p = 3 then LOW else if p = 2 then LOW else w.pins p := by
  simp [resetAll, relay, digitalWrite, println, debugger]

/-- C8: after `resetAll` the three relays (pins 2, 3, 4) are low whatever
they were before and no other pin has changed; when the three relays are
already low the pin state after `resetAll` is the pin state before it; and
`resetAll` run twice leaves the pin state `resetAll` run once leaves. -/
theorem resetAll_forces_off (w : World) :
    ((resetAll w).pins 2 = LOW ∧ (resetAll w).pins 3 = LOW ∧ (resetAll w).pins 4 = LOW) ∧
    (∀ p, p ≠ 2 → p ≠ 3 → p ≠ 4 → (resetAll w).pins p = w.pins p) ∧
    (w.pins 2 = LOW → w.pins 3 = LOW → w.pins 4 = LOW → (resetAll w).pins = w.pins) ∧
    (resetAll (resetAll w)).pins = (resetAll w).pins := by
  refine ⟨by simp [resetAll_pins], ?_, ?_, ?_⟩
  · intro p h2 h3 h4
    simp [resetAll_pins, h2, h3, h4]
  · intro h2 h3 h4
    rw [resetAll_pins]
    funext p
    by_cases hp4 : p = 4
    · simp [hp4, h4]
    · by_cases hp3 : p = 3
      · simp [hp3, h3]
      · by_cases hp2 : p = 2
        · simp [hp2, h2]
        · simp [hp4, hp3, hp2]
  · rw [resetAll_pins (resetAll w), resetAll_pins w]
    funext p
    by_cases hp4 : p = 4
    · simp [hp4]
    · by_cases hp3 : p = 3
      · simp [hp3]
      · by_cases hp2 : p = 2
        · simp [hp2]
        · simp [hp4, hp3, hp2]

/-- C8 on a board whose three relays are energized. -/
theorem resetAll_forces_off_witness :
    ((resetAll hotWorld).pins 2 = LOW ∧ (resetAll hotWorld).pins 3 = LOW ∧
      (resetAll hotWorld).pins 4 = LOW) ∧
    (∀ p, p ≠ 2 → p ≠ 3 → p ≠ 4 → (resetAll hotWorld).pins p = hotWorld.pins p) ∧
    (hotWorld.pins 2 = LOW → hotWorld.pins 3 = LOW → hotWorld.pins 4 = LOW →
      (resetAll hotWorld).pins = hotWorld.pins) ∧
    (resetAll (resetAll hotWorld)).pins = (resetAll hotWorld).pins :=
  resetAll_forces_off hotWorld

/-! ## Command dispatch (C7) -/

/-- C7: a pass of `loop` that reads a byte other than `' '` (32), `'c'` (99)
and `'d'` (100) consumes that byte, logs the one message "Invalid Command"
and changes nothing else (no pin is written); a pass of `loop` with no
serial input leaves the board as it is. -/
theorem loop_invalid_command (fuel : Nat) (w : World) (b : Nat) (rest : List Nat)
    (hin : w.serialIn = b :: rest) (hb : b < 256)
    (h1 : b ≠ 32) (h2 : b ≠ 99) (h3 : b ≠ 100) :
    loop fuel w =
      .ok { w with serialIn := rest,
                   log := w.log ++ [Event.println "Invalid Command"] } ∧
    loop fuel { w with serialIn := [] } = .ok { w with serialIn := [] } := by
  constructor
  · have hc1 : ¬ toChar8 ((b : Int) % 256) = command := by
      simp only [toChar8, command]; omega
    have hc2 : ¬ toChar8 ((b : Int) % 256) = clr := by
      simp only [toChar8, clr]; omega
    have hc3 : ¬ toChar8 ((b : Int) % 256) = initDebug := by
      simp only [toChar8, initDebug]; omega
    simp [loop, serialAvailable, serialRead, hin, hc1, hc2, hc3, println]
  · simp [loop, serialAvailable]

/-- C7 for the input byte 120, the character `'x'`. -/
theorem loop_invalid_command_witness :
    loop 0 { idleWorld with serialIn := [120] } =
      .ok { idleWorld with serialIn := [],
                           log := [Event.println "Invalid Command"] } ∧
    loop 0 { idleWorld with serialIn := [] } = .ok { idleWorld with serialIn := [] } :=
  loop_invalid_command 0 { idleWorld with serialIn := [120] } 120 [] rfl
    (by decide) (by decide) (by decide) (by decide)

/-! ## Elapsed times on a steady clock (C1) -/

theorem elapsed_exact (m0 m : Nat) (h0 : m0 ≤ m) (h1 : m ≤ m0 + 32767) :
    toInt16 (toU32 (toU32 m - toU32 (toInt16 (toU32 m0)))) = (m : Int) - m0 := by
  simp only [toInt16, toU32]
  omega

theorem not_timeUp_bound (m0 m : Nat) (t : Int) (h0 : m0 ≤ m)
    (h1 : m ≤ m0 + 75) (ht0 : 0 ≤ t) (ht : t ≤ 75)
    (h : ¬ toU32 (toU32 m - toU32 (toInt16 (toU32 m0))) ≥ toU32 t) :
    (m : Int) - m0 < t := by
  simp only [toInt16, toU32] at h
  omega

theorem stage1Loop_elapsed (c : Nat → Nat) (hc : SteadyClock c) (m0 : Nat) (s : Int)
    (hs0 : s = toInt16 (toU32 m0)) :
    ∀ (fuel : Nat) (w w1 : World) (dT v : Int), w.clock = c →
      m0 ≤ c w.tick → c w.tick ≤ m0 + 75 →
      stage1Loop fuel s w = .ok (w1, dT, v) →
      0 ≤ dT ∧ dT ≤ 76 ∧ v = Int.tdiv dT 8 := by
  intro fuel
  induction fuel with
  | zero => intro w w1 dT v _ _ _ h; simp [stage1Loop] at h
  | succ k ih =>
    intro w w1 dT v hw hlo hhi h
    have hs := hc w.tick
    have hexit : ∀ w', w'.clock = c → w'.tick = w.tick + 1 →
        stage1Exit s w' = .ok (w1, dT, v) →
        0 ≤ dT ∧ dT ≤ 76 ∧ v = Int.tdiv dT 8 := by
      intro w' hw' ht' he
      rw [stage1Exit_eq, hs0, hw', ht',
        elapsed_exact m0 _ (by omega) (by omega)] at he
      simp only [Except.ok.injEq, Prod.mk.injEq] at he
      obtain ⟨-, hd, hv⟩ := he
      rw [hd] at hv
      refine ⟨by omega, by omega, hv.symm⟩
    simp only [stage1Loop, checkTime_eq, analogRead_eq] at h
    split at h
    · exact hexit { w with tick := w.tick + 1 } hw rfl h
    · next hno =>
      have hlt : (c w.tick : Int) - m0 < 75 := by
        rw [hw, hs0] at hno
        simp only [decide_eq_true_eq, onTime] at hno
        exact not_timeUp_bound m0 _ 75 hlo hhi (by decide) (by decide) hno
      split at h
      · exact hexit { w with tick := w.tick + 1, areads := w.areads + 1 } hw rfl h
      · exact ih { w with tick := w.tick + 1, areads := w.areads + 1 } _ _ _ hw (by show m0 ≤ c (w.tick + 1); omega)
          (by show c (w.tick + 1) ≤ m0 + 75; omega) h

theorem stage2Loop_elapsed (c : Nat → Nat) (hc : SteadyClock c) (m0 : Nat) (s v : Int)
    (hs0 : s = toInt16 (toU32 m0)) (hv : 0 < v) :
    ∀ (fuel : Nat) (w w2 : World) (dT2 v2 t2 : Int), w.clock = c →
      m0 ≤ c w.tick → c w.tick ≤ m0 + 4 →
      stage2Loop fuel s v w = .ok (w2, dT2, v2, t2) →
      0 ≤ dT2 ∧ dT2 ≤ 5 := by
  intro fuel
  induction fuel with
  | zero => intro w w2 dT2 v2 t2 _ _ _ h; simp [stage2Loop] at h
  | succ k ih =>
    intro w w2 dT2 v2 t2 hw hlo hhi h
    have hs := hc w.tick
    have hexit : ∀ w' t, w'.clock = c → w'.tick = w.tick + 1 →
        (stage2Exit s w').map (fun r => (r.1, r.2.1, r.2.2, t))
          = .ok (w2, dT2, v2, t2) →
        0 ≤ dT2 ∧ dT2 ≤ 5 := by
      intro w' t hw' ht' he
      rw [stage2Exit_eq, hs0, hw', ht',
        elapsed_exact m0 _ (by omega) (by omega)] at he
      simp only [Except.map, Except.ok.injEq, Prod.mk.injEq] at he
      obtain ⟨-, hd, -⟩ := he
      omega
    have hb := four_div_bounds v hv
    simp only [stage2Loop, predict_of_pos v hv, onBoard_ok, checkTime_eq, analogRead_eq] at h
    split at h
    · exact hexit { w with tick := w.tick + 1 } _ hw rfl h
    · next hno =>
      have hlt : (c w.tick : Int) - m0 < 4 / v := by
        rw [hw, hs0] at hno
        simp only [decide_eq_true_eq] at hno
        exact not_timeUp_bound m0 _ _ hlo (by omega) hb.1 (by omega) hno
      split at h
      · exact hexit { w with tick := w.tick + 1, areads := w.areads + 1 } _ hw rfl h
      · exact ih { w with tick := w.tick + 1, areads := w.areads + 1 } _ _ _ _ hw (by show m0 ≤ c (w.tick + 1); omega)
          (by show c (w.tick + 1) ≤ m0 + 4; omega) h

/-- C1, as stated, fails: on `jumpWorld`, whose clock readings never
decrease, the fire sequence runs to completion and records the elapsed time
`dT = 100` for stage 1, above `onTime = 75`. -/
theorem elapsed_exceeds_onTime_on_jumping_clock :
    (∀ k, jumpWorld.clock k ≤ jumpWorld.clock (k + 1)) ∧
    (fire 2 jumpWorld).map Prod.snd = .ok ⟨100, 12, 8, 1, 0, .ok 4⟩ ∧
    ¬ ((100 : Int) ≤ onTime) := by
  refine ⟨?_, rfl, by decide⟩
  intro k
  simp only [jumpWorld]
  split_ifs <;> omega

/-- The bound 76 of the amended C1 is attained: on a steady clock that ticks
at every reading, with sensors that never trip, the fire sequence runs to
completion; stage 1 ends on the time test and records `dT = 76`. -/
theorem elapsed_76_on_steady_clock :
    SteadyClock brightWorld.clock ∧
    (fire 75 brightWorld).map Prod.snd = .ok ⟨76, 9, 2, 0, 0, .error Fault.division⟩ := by
  refine ⟨?_, by decide⟩
  intro k
  simp only [brightWorld]
  omega

/-- C1, amended: on a steady clock (successive readings never decrease and
differ by at most 1 ms) every stage-1 loop that completes records an elapsed
time `0 ≤ dT ≤ 76`; and when `dT ≥ 8`, so that the budget `4/v` of stage 2 is
defined, every stage-2 loop that then completes records `0 ≤ dT2 ≤ 5`. -/
theorem elapsed_bounded_on_steady_clock (fuel : Nat) (w w1 : World) (dT v : Int)
    (hc : SteadyClock w.clock) (h1 : stage1 fuel w = .ok (w1, dT, v)) :
    (0 ≤ dT ∧ dT ≤ 76) ∧
    (8 ≤ dT → ∀ fuel2 w2 dT2 v2 t2, stage2 fuel2 v w1 = .ok (w2, dT2, v2, t2) →
      0 ≤ dT2 ∧ dT2 ≤ 5) := by
  obtain ⟨n1, a1, hw1⟩ := stage1_world _ _ _ _ _ h1
  have hs := hc w.tick
  have hb := stage1Loop_elapsed w.clock hc (w.clock w.tick) _ rfl fuel
    (digitalWrite (relay.getD 0 0) HIGH { w with tick := w.tick + 1 }) w1 dT v rfl
    (by show w.clock w.tick ≤ w.clock (w.tick + 1); omega)
    (by show w.clock (w.tick + 1) ≤ w.clock w.tick + 75; omega) h1
  refine ⟨⟨hb.1, hb.2.1⟩, ?_⟩
  intro h8 fuel2 w2 dT2 v2 t2 h2
  have hv : v = dT / 8 := by rw [hb.2.2, Int.tdiv_eq_ediv hb.1 (by decide)]
  have hclk : w1.clock = w.clock := by rw [hw1]
  have hs1 := (hc w1.tick)
  rw [← hclk] at hc
  exact stage2Loop_elapsed w1.clock hc (w1.clock w1.tick) _ v rfl (by omega) fuel2
    (digitalWrite (relay.getD 1 0) HIGH { w1 with tick := w1.tick + 1 }) w2 dT2 v2 t2 rfl
    (by show w1.clock w1.tick ≤ w1.clock (w1.tick + 1); rw [hclk]; omega)
    (by show w1.clock (w1.tick + 1) ≤ w1.clock w1.tick + 4; rw [hclk]; omega) h2

/-- The amended C1 on `tickWorld`: stage 1 ends on the sensor with `dT = 11`,
stage 2 then ends on the sensor with `dT2 = 2`. -/
theorem elapsed_bounded_on_steady_clock_witness :
    SteadyClock tickWorld.clock ∧
    stage1 10 tickWorld = .ok (tickWorld1, 11, 1) ∧
    (stage2 1 1 tickWorld1).map Prod.snd = .ok (2, 0, 4) ∧
    (((0 : Int) ≤ 11 ∧ (11 : Int) ≤ 76) ∧
    ((8 : Int) ≤ 11 → ∀ fuel2 w2 dT2 v2 t2,
      stage2 fuel2 1 tickWorld1 = .ok (w2, dT2, v2, t2) → 0 ≤ dT2 ∧ dT2 ≤ 5)) :=
  ⟨fun k => by simp only [tickWorld]; omega, rfl, rfl,
   elapsed_bounded_on_steady_clock 10 tickWorld tickWorld1 11 1
     (fun k => by simp only [tickWorld]; omega) rfl⟩

/-! ## The stage-2 budget and the stage-3 pulse (C2, C4, C5) -/

set_option maxRecDepth 8000

/-- C4 at the failing input: on `darkWorld` sensor 1 trips at the first poll,
so stage 1 records `dT = 0` and `v = 0`; the stage-2 budget `4/v` is then a
division by zero and the fire branch has no defined result (no fallback to
75); the stage-3 prediction `4/v2` is as unguarded for `v2 = 0`. -/
theorem prediction_unguarded_at_zero_velocity :
    (stage1 1 darkWorld).map Prod.snd = .ok (0, 0) ∧
    predict 0 = .error Fault.division ∧
    fire 1 darkWorld = .error Fault.division ∧
    (stage3 0 idleWorld).2 = .error Fault.division :=
  ⟨rfl, rfl, rfl, rfl⟩

/-- Where the prediction is defined and positive velocities are concerned,
the budget needs no clamp: for `v > 0`, `t2 = 4/v` is at most 4 and
`min(t2, 75) = t2`. -/
theorem budget_within_onTime (v : Int) (hv : 0 < v) :
    predict v = .ok (4 / v) ∧ min (4 / v) onTime = 4 / v := by
  refine ⟨predict_of_pos v hv, ?_⟩
  have hb := four_div_bounds v hv
  simp only [onTime]
  omega

/-- C2 at the failing input: on `quickWorld`, a steady clock, sensor 1 trips
at the fifth poll, so stage 1 records `dT = 6` and `v = 0` and the budget
`4/v` is a division by zero.  Stage 2 starts at clock value 7.  With the
value -1 for the quotient, none of its hundred polls, at 8 to 107 ms, ends
the loop: relay 2 is still on 100 ms after it was switched on.  With no
value for the quotient the stage has no defined result. -/
theorem stage2_budget_not_clamped :
    SteadyClock quickWorld.clock ∧
    stage1 5 quickWorld = .ok (quickWorld1, 6, 0) ∧
    predict 0 = .error Fault.division ∧
    quickWorld1.clock 7 = 7 ∧ quickWorld1.clock 107 = 107 ∧
    stage2 100 0 quickWorld1 = .error Fault.fuel ∧
    stage2 100 0 { quickWorld1 with divZero := none } = .error Fault.division :=
  ⟨fun k => by simp only [quickWorld]; omega, rfl, rfl, rfl, rfl, rfl, rfl⟩

/-- C5 at the failing input: for `dT2 = 8` the velocity is `v2 = 1` and the
predicted time is `dT3 = 4`, yet between the two writes to relay 3 the
program waits `delay(20)`. -/
theorem stage3_pulse_is_fixed :
    velocity 8 = .ok 1 ∧
    ((stage3 1 idleWorld).2, (stage3 1 idleWorld).1.log) =
      (.ok 4, [Event.write 4 HIGH, Event.delay 20, Event.write 4 LOW,
               Event.println "Coil 3 fired."]) ∧
    min (4 : Int) 75 ≠ 20 := by
  decide

end CoilGun
